import Mathlib

/-!
Verification of the sitemap discovery subsystem of python_check_sitemap.

The development shallowly embeds the two sitemap parser implementations of
the repository:
- `src/website_analyzer/src/sitemap_parser.py` (async resolution engine,
  filter and priority pipeline, simple parser), and
- `src/src/sitemap_parser.py` (synchronous parser with robots.txt
  disallow filtering).

Python strings are modelled as Lean `String` (a structure over `List Char`,
matching Python code-point semantics for the ASCII inputs this module
handles); Python floats are modelled as exact rationals `ℚ`; fallible
operations return `Option`/`Except`; the network is an explicit function
from URL to fetch outcome.  All definitions are structurally recursive so
that concrete inputs evaluate inside the kernel.
-/

/-! ## String utilities (models of the Python str operations used) -/

/-- Bool test that the second list is an initial segment of the first. -/
def startsWithL : List Char → List Char → Bool
  | _, [] => true
  | [], _ :: _ => false
  | c :: cs, p :: ps => c == p && startsWithL cs ps

/-- Model of Python str.startswith. -/
def strStartsWith (s pat : String) : Bool := startsWithL s.data pat.data

/-- Model of Python str.endswith. -/
def strEndsWith (s pat : String) : Bool := startsWithL s.data.reverse pat.data.reverse

/-- Bool test that pat occurs somewhere in s (model of the Python in operator
on strings, for non-empty pat). -/
def subOccL (pat : List Char) : List Char → Bool
  | [] => startsWithL [] pat
  | c :: rest => startsWithL (c :: rest) pat || subOccL pat rest

/-- Model of the Python substring test pat in s. -/
def strContains (s pat : String) : Bool := subOccL pat.data s.data

/-- Everything after the first occurrence of pat, none when pat does not
occur (model of Python s.split(pat, 1)[1]). -/
def afterFirstL (pat : List Char) : List Char → Option (List Char)
  | [] => if startsWithL [] pat then some [] else none
  | c :: rest =>
      if startsWithL (c :: rest) pat then some ((c :: rest).drop pat.length)
      else afterFirstL pat rest

/-- Everything before the first occurrence of pat (the whole list when pat
does not occur). -/
def beforeFirstL (pat : List Char) : List Char → List Char
  | [] => []
  | c :: rest =>
      if startsWithL (c :: rest) pat then []
      else c :: beforeFirstL pat rest

/-- Split on a single separator character, keeping empty pieces (model of
Python s.split(sep) for a one-character sep, and of str.splitlines for
newline-separated text). -/
def splitOnCharL (sep : Char) : List Char → List (List Char)
  | [] => [[]]
  | c :: rest =>
      if c == sep then [] :: splitOnCharL sep rest
      else
        match splitOnCharL sep rest with
        | [] => [[c]]
        | l :: ls => (c :: l) :: ls

/-- The whitespace characters stripped by Python str.strip(). -/
def isPyWs (c : Char) : Bool :=
  c == ' ' || c == '\t' || c == '\n' || c == '\r' || c == '\x0b' || c == '\x0c'

/-- Model of Python str.strip(). -/
def strTrim (s : String) : String :=
  ⟨((s.data.dropWhile isPyWs).reverse.dropWhile isPyWs).reverse⟩

/-- Model of Python str.lower() (the inputs handled here are ASCII). -/
def strLower (s : String) : String := ⟨s.data.map Char.toLower⟩

/-- Model of Python len() on a string (count of code points). -/
def strLen (s : String) : Nat := s.data.length

/-- Model of Python s[n:]. -/
def strDrop (s : String) (n : Nat) : String := ⟨s.data.drop n⟩

/-- Model of Python s.split(sep, 1)[-1]: the remainder after the first
occurrence of sep, or s itself when sep does not occur. -/
def pySplit1Last (s sep : String) : String :=
  match afterFirstL sep.data s.data with
  | some r => ⟨r⟩
  | none => s

/-- Numeric value of a non-empty all-digit character list. -/
def digitsToNat : List Char → Option Nat
  | [] => none
  | cs => go cs 0
where
  go : List Char → Nat → Option Nat
    | [], acc => some acc
    | c :: rest, acc =>
        if '0' ≤ c && c ≤ '9' then go rest (acc * 10 + (c.toNat - '0'.toNat))
        else none

/-- Model of Python float() restricted to optionally signed decimal literals
(the only shapes a sitemap priority field takes); anything else gives none,
standing for ValueError.  Exponents, inf and nan are outside the model. -/
def pyFloat? (s : String) : Option ℚ :=
  let cs := (strTrim s).data
  let (sign, cs) : ℚ × List Char :=
    match cs with
    | '-' :: rest => (-1, rest)
    | '+' :: rest => (1, rest)
    | _ => (1, cs)
  match splitOnCharL '.' cs with
  | [ip] => (digitsToNat ip).map (fun n => sign * n)
  | [ip, fp] =>
      if ip.isEmpty && fp.isEmpty then none
      else
        match (if ip.isEmpty then some 0 else digitsToNat ip),
              (if fp.isEmpty then some 0 else digitsToNat fp) with
        | some i, some f => some (sign * ((i : ℚ) + (f : ℚ) / (10 ^ fp.length)))
        | _, _ => none
  | _ => none

/-! ## URL helpers (models of urllib.parse as used by the source) -/

/-- Model of urlparse(url).netloc for the absolute scheme://netloc/... URLs
this module handles; URLs without :// have empty netloc. -/
def urlNetloc (url : String) : String :=
  match afterFirstL "://".data url.data with
  | none => ""
  | some rest => ⟨rest.takeWhile (fun c => !(c == '/' || c == '?' || c == '#'))⟩

/-- Model of urlparse(url).path for the same class of URLs: everything after
the netloc up to a query or fragment. -/
def urlPath (url : String) : String :=
  let rest :=
    match afterFirstL "://".data url.data with
    | none => url.data
    | some r => r.dropWhile (fun c => !(c == '/' || c == '?' || c == '#'))
  ⟨rest.takeWhile (fun c => !(c == '?' || c == '#'))⟩

/-- Model of urlparse(url).scheme for scheme://... URLs. -/
def urlScheme (url : String) : String :=
  if subOccL "://".data url.data then ⟨beforeFirstL "://".data url.data⟩ else ""

/-- Model of SitemapParser._get_domain: scheme://netloc of a URL. -/
def getDomain (url : String) : String :=
  urlScheme url ++ "://" ++ urlNetloc url

/-- Model of urllib.parse.urljoin for the shapes this module uses: an
absolute base of the form scheme://netloc joined with an absolute-path or
plain relative reference; a reference carrying its own scheme is returned
unchanged.  Protocol-relative references are outside the model. -/
def pyUrljoin (base url : String) : String :=
  if subOccL "://".data url.data then url
  else if url.isEmpty then base
  else if strStartsWith url "/" then getDomain base ++ url
  else getDomain base ++ "/" ++ url

/-- Model of SitemapParser._normalize_url. -/
def normalizeUrl (url baseUrl : String) : String :=
  if strStartsWith url "http" then url else pyUrljoin baseUrl url

/-- Model of SitemapParser._discover_sitemap_urls: the fixed well-known
sitemap paths joined onto the domain. -/
def discoverSitemapUrls (domain : String) : List String :=
  ["/sitemap.xml", "/sitemap_index.xml", "/sitemaps.xml",
   "/sitemap/sitemap.xml", "/wp-sitemap.xml", "/sitemap1.xml"].map
    (fun p => pyUrljoin domain p)

/-- Collecting a list of strings into a Python set and listing it:
deduplicated, here in first-occurrence order.  Python set iteration order
is unspecified; every theorem below is insensitive to this order. -/
def pyDedup (l : List String) : List String := go [] l
where
  go (seen : List String) : List String → List String
    | [] => []
    | x :: xs => if seen.contains x then go seen xs else x :: go (x :: seen) xs

/-! ## Data model of the website_analyzer parser -/

/-- Embedding of the URLInfo dataclass. -/
structure URLInfo where
  url : String
  lastmod : Option String := none
  changefreq : Option String := none
  priority : Option ℚ := none
  loc_type : String := "page"
  source_sitemap : Option String := none
deriving Repr, DecidableEq

/-- One url element of a sitemap document as BeautifulSoup presents it to
_parse_sitemap_xml: the text of each child element that the code reads,
none when the child element is missing. -/
structure UrlElem where
  loc : Option String := none
  lastmod : Option String := none
  changefreq : Option String := none
  priority : Option String := none
deriving Repr, DecidableEq

/-- The BeautifulSoup view of one fetched document, holding exactly the
queries _parse_sitemap_xml makes: truthiness of find(sitemapindex), the
loc texts of find_all(sitemap), the url elements of find_all(url), and the
image loc texts of the namespaced image entries.  malformed marks content
on which parsing raises (the except branch of the source). -/
structure Soup where
  hasSitemapIndex : Bool := false
  sitemapElems : List (Option String) := []
  urlElems : List UrlElem := []
  imageElems : List (Option String) := []
  malformed : Bool := false
deriving Repr, DecidableEq

/-- Embedding of SitemapParser._parse_sitemap_xml.  An element text is read
only when the element exists and its text is truthy (non-empty before
stripping), exactly as the if loc and loc.text tests do; the value stored
is the stripped text.  A priority that fails float() is left absent.  The
except branch returns two empty lists. -/
def parseSitemapXml (soup : Soup) (sitemapUrl : String) :
    List URLInfo × List String :=
  if soup.malformed then ([], []) else
  let nested :=
    if soup.hasSitemapIndex then
      soup.sitemapElems.filterMap (fun loc =>
        match loc with
        | some t => if t ≠ "" then some (strTrim t) else none
        | none => none)
    else []
  let urls := soup.urlElems.filterMap (fun e =>
    match e.loc with
    | some t =>
        if t ≠ "" then
          some { url := strTrim t
                 lastmod := match e.lastmod with
                   | some lm => if lm ≠ "" then some (strTrim lm) else none
                   | none => none
                 changefreq := match e.changefreq with
                   | some cf => if cf ≠ "" then some (strTrim cf) else none
                   | none => none
                 priority := match e.priority with
                   | some p => if p ≠ "" then pyFloat? (strTrim p) else none
                   | none => none
                 source_sitemap := some sitemapUrl : URLInfo }
        else none
    | none => none)
  let images := soup.imageElems.filterMap (fun loc =>
    match loc with
    | some t =>
        if t ≠ "" then
          some { url := strTrim t, loc_type := "image",
                 source_sitemap := some sitemapUrl : URLInfo }
        else none
    | none => none)
  (urls ++ images, nested)

/-! ## Filter and priority pipeline -/

/-- Embedding of SitemapParser._get_url_priority.  Python x or 0.5 yields
0.5 both when the declared priority is None and when it equals 0.0 (a falsy
float).  Float arithmetic is modelled exactly over ℚ. -/
def getUrlPriority (u : URLInfo) : ℚ :=
  let priority : ℚ := match u.priority with
    | some p => if p = 0 then 0.5 else p
    | none => 0.5
  let path := strLower (urlPath u.url)
  let priority := if path = "" ∨ path = "/" then priority + 0.5 else priority
  let priority :=
    if (["about", "service", "product", "contact"].any
        (fun keyword => strContains path keyword)) then priority + 0.2 else priority
  let depth := ((splitOnCharL '/' path.data).filter (fun p => !p.isEmpty)).length
  let priority := priority - depth * 0.1
  min 1 (max 0 priority)

/-- Stable insertion of x in front of the first element of strictly smaller
key (descending order; an equal-key element already in place stays in
front, and x comes from earlier input than everything in the list). -/
def insertDesc (key : URLInfo → ℚ) (x : URLInfo) : List URLInfo → List URLInfo
  | [] => [x]
  | y :: ys => if key y ≤ key x then x :: y :: ys else y :: insertDesc key x ys

/-- Stable descending sort by key, the behaviour of Python
list.sort(key=..., reverse=True); stable-sort output is unique, so
insertion sort is a faithful model of the source Timsort call. -/
def sortDesc (key : URLInfo → ℚ) : List URLInfo → List URLInfo
  | [] => []
  | x :: xs => insertDesc key x (sortDesc key xs)

/-- The filtering phase of SitemapParser._filter_urls: the four hard
exclusions applied in source order (host mismatch, excluded extension,
excluded pattern, over-long URL). -/
def keptUrls (urls : List URLInfo) (domain : String) : List URLInfo :=
  let domainNetloc := urlNetloc domain
  urls.filter (fun u =>
    let pathLower := strLower (urlPath u.url)
    urlNetloc u.url == domainNetloc &&
    !([".pdf", ".jpg", ".jpeg", ".png", ".gif", ".bmp",
       ".css", ".js", ".ico", ".xml", ".txt", ".zip"].any
        (fun ext => strEndsWith pathLower ext)) &&
    !(["admin", "wp-admin", "login", "register", "api/"].any
        (fun pat => strContains pathLower pat)) &&
    !(strLen u.url > 200))

/-- Embedding of SitemapParser._filter_urls: keep the surviving records and
sort them by computed priority, descending and stable. -/
def filterUrls (urls : List URLInfo) (domain : String) : List URLInfo :=
  sortDesc getUrlPriority (keptUrls urls domain)

/-- Embedding of SitemapParser._deduplicate_urls (the seen set as a list). -/
def dedupLoop (seen : List String) : List URLInfo → List URLInfo
  | [] => []
  | u :: rest =>
      if seen.contains u.url then dedupLoop seen rest
      else u :: dedupLoop (u.url :: seen) rest

/-- Embedding of SitemapParser._deduplicate_urls. -/
def deduplicateUrls (urls : List URLInfo) : List URLInfo := dedupLoop [] urls

/-! ## Fetcher model -/

/-- One HTTP attempt as _fetch_content sees it: a response with a status
code (whose body text is read only on 200), or an exception raised during
the request. -/
inductive AttemptOutcome where
  | status (code : Nat) (text : String)
  | raised
deriving Repr, DecidableEq

/-- Embedding of SitemapParser._fetch_content under its tenacity
stop_after_attempt(3) decorator: attempt k returns some text on a 200
response, returns none on any other status (tenacity does not retry a
returned value), and only an exception is retried; when the attempt budget
runs out the exception propagates (Except.error).  resp gives the outcome
of the k-th attempt. -/
def fetchContentGo (resp : Nat → AttemptOutcome) :
    Nat → Nat → Except Unit (Option String)
  | 0, _ => .error ()
  | remaining + 1, k =>
      match resp k with
      | .status code text => if code = 200 then .ok (some text) else .ok none
      | .raised => fetchContentGo resp remaining (k + 1)

/-- _fetch_content with the fixed 3-attempt budget, starting at attempt 1. -/
def fetchContent (resp : Nat → AttemptOutcome) : Except Unit (Option String) :=
  fetchContentGo resp 3 1

/-! ## Resolution engine (website_analyzer parse_website) -/

/-- Raw content of one successfully fetched document: the wire text paired
with the BeautifulSoup parse of that text. -/
structure Content where
  text : String
  soup : Soup := {}
deriving Repr, DecidableEq

/-- Outcome of one _fetch_content call inside the resolution engine: ok
with the document content, or fail when the fetch returned None (non-200
status) or raised after exhausting its retries.  Both failure shapes are
handled identically by every caller in the source. -/
inductive FetchOutcome where
  | ok (c : Content)
  | fail
deriving Repr, DecidableEq

/-- Embedding of the SitemapInfo dataclass.  The last_parsed wall-clock
field is dropped (never read by the engine) and the error message string is
abstracted to its truthiness, the only way the source consumes it. -/
structure SitemapInfo where
  url : String
  urls : List URLInfo
  nested_sitemaps : List String
  error : Bool := false
deriving Repr, DecidableEq

/-- Embedding of SitemapParser._parse_single_sitemap over the visited set
parsed (a list standing for the Python set).  Returns the SitemapInfo, the
updated visited set, and the instrumentation log of sitemap URLs actually
passed to _fetch_content by this call.  An already-visited URL is answered
without fetching; otherwise the URL is added to the visited set before the
fetch.  A fetch failure or falsy content yields an errored info; the
try/except guarantees a normal return in every case. -/
def parseSingleSitemap (net : String → FetchOutcome) (parsed : List String)
    (sitemapUrl : String) : SitemapInfo × List String × List String :=
  if parsed.contains sitemapUrl then
    ({ url := sitemapUrl, urls := [], nested_sitemaps := [] }, parsed, [])
  else
    let parsed1 := sitemapUrl :: parsed
    match net sitemapUrl with
    | .fail =>
        ({ url := sitemapUrl, urls := [], nested_sitemaps := [], error := true },
         parsed1, [sitemapUrl])
    | .ok c =>
        if c.text = "" then
          ({ url := sitemapUrl, urls := [], nested_sitemaps := [], error := true },
           parsed1, [sitemapUrl])
        else
          let (urls, nested) := parseSitemapXml c.soup sitemapUrl
          ({ url := sitemapUrl, urls := urls, nested_sitemaps := nested },
           parsed1, [sitemapUrl])

/-- One depth level of parse_website: every pending sitemap is resolved.
The source runs the level under asyncio.gather with a semaphore, but each
task checks and extends the visited set synchronously before its first
await, so any interleaving fetches a URL at most once and the level is
faithfully linearized in task order; results are collected in task order,
as gather returns them. -/
def runLevel (net : String → FetchOutcome) (parsed : List String) :
    List String → List SitemapInfo × List String × List String
  | [] => ([], parsed, [])
  | u :: rest =>
      let (info, parsed1, flog) := parseSingleSitemap net parsed u
      let (infos, parsed2, flogs) := runLevel net parsed1 rest
      (info :: infos, parsed2, flog ++ flogs)

/-- The record collection of the merge phase: URLs of every non-errored
document of the level, in order. -/
def collectUrls : List SitemapInfo → List URLInfo
  | [] => []
  | info :: rest => (if info.error then [] else info.urls) ++ collectUrls rest

/-- The frontier construction of the merge phase: nested sitemap URLs of
every non-errored document, normalized against the domain, dropping those
already in the visited set (which at this point includes every URL of the
current level). -/
def collectNext (domain : String) (parsed : List String) :
    List SitemapInfo → List String
  | [] => []
  | info :: rest =>
      (if info.error then []
       else info.nested_sitemaps.filterMap (fun nu =>
         let n := normalizeUrl nu domain
         if parsed.contains n then none else some n)) ++
      collectNext domain parsed rest

/-- Mutable state of one parse_website call. -/
structure ResolveState where
  parsed : List String
  acc : List URLInfo
  fetched : List String
  iters : Nat
deriving Repr, DecidableEq

/-- Embedding of the while loop of parse_website: remaining is the number
of depth levels the loop may still run (max_depth minus the current depth),
so the loop stops exactly when it hits zero or the frontier empties, as the
source condition pending_sitemaps and depth < max_depth does.  fetched and
iters instrument the fetch calls and the executed iterations. -/
def resolveLoop (net : String → FetchOutcome) (domain : String) :
    Nat → List String → ResolveState → ResolveState
  | 0, _, st => st
  | _ + 1, [], st => st
  | remaining + 1, p :: ps, st =>
      let (infos, parsed1, flog) := runLevel net st.parsed (p :: ps)
      let nxt := collectNext domain parsed1 infos
      resolveLoop net domain remaining nxt
        { parsed := parsed1
          acc := st.acc ++ collectUrls infos
          fetched := st.fetched ++ flog
          iters := st.iters + 1 }

/-- Embedding of SitemapParser._check_robots_txt: fetch robots.txt of the
domain and collect the values of Sitemap: lines; any failure yields the
empty list.  Lines are modelled as the newline-split of the text. -/
def checkRobotsTxt (net : String → FetchOutcome) (domain : String) : List String :=
  match net (pyUrljoin domain "/robots.txt") with
  | .fail => []
  | .ok c =>
      if c.text = "" then []
      else
        (splitOnCharL '\n' c.text.data).filterMap (fun lineChars =>
          let line := strTrim ⟨lineChars⟩
          if strStartsWith (strLower line) "sitemap:" then
            let s := strTrim (strDrop line 8)
            if s ≠ "" then some s else none
          else none)

/-- The seed frontier of parse_website: robots-declared sitemaps united
with the well-known paths (a Python set, here in first-occurrence order),
falling back to /sitemap.xml when both are empty. -/
def seedSitemaps (net : String → FetchOutcome) (websiteUrl : String) : List String :=
  let domain := getDomain websiteUrl
  let seeds := pyDedup (checkRobotsTxt net domain ++ discoverSitemapUrls domain)
  if seeds.isEmpty then [pyUrljoin domain "/sitemap.xml"] else seeds

/-- Result of one parse_website call, with instrumentation. -/
structure ResolveResult where
  result : List URLInfo
  parsed : List String
  fetched : List String
  iters : Nat
deriving Repr, DecidableEq

/-- Embedding of SitemapParser.parse_website: reset state, build the seed
frontier, run the depth-bounded level loop, then deduplicate and filter the
accumulated records.  The function is total: every per-document failure is
absorbed inside parseSingleSitemap, so no exception reaches this level. -/
def parseWebsite (net : String → FetchOutcome) (websiteUrl : String)
    (maxDepth : Nat) : ResolveResult :=
  let domain := getDomain websiteUrl
  let st := resolveLoop net domain maxDepth (seedSitemaps net websiteUrl)
    { parsed := [], acc := [], fetched := [], iters := 0 }
  { result := filterUrls (deduplicateUrls st.acc) domain
    parsed := st.parsed
    fetched := st.fetched
    iters := st.iters }

/-! ## Simple synchronous parser -/

/-- The response of the one session.get call of
SimpleSitemapParser.parse_sitemap_simple: a status code with the soup of
the body, or an exception anywhere in the try block. -/
inductive SimpleResp where
  | resp (status : Nat) (soup : Soup)
  | exn
deriving Repr, DecidableEq

/-- Embedding of SimpleSitemapParser.parse_sitemap_simple: on a 200
response collect the truthy url locations, stripped, truncated to the
first 50; any other status falls through to the final return [] and any
exception is caught and also yields []. -/
def parseSitemapSimple (r : SimpleResp) : List String :=
  match r with
  | .exn => []
  | .resp status soup =>
      if status = 200 then
        if soup.malformed then []
        else
          (soup.urlElems.filterMap (fun e =>
            match e.loc with
            | some t => if t ≠ "" then some (strTrim t) else none
            | none => none)).take 50
      else []

/-! ## The src/src synchronous parser -/

/-- Embedding of the SitemapEntry dataclass of src/src/sitemap_parser.py. -/
structure SitemapEntry where
  url : String
  lastmod : Option String := none
  changefreq : Option String := none
  priority : Option ℚ := none
deriving Repr, DecidableEq

/-- One attempt of src SitemapParser.fetch: a response with status code and
body, or a requests.RequestException. -/
inductive SrcAttempt where
  | resp (code : Nat) (text : String)
  | exn
deriving Repr, DecidableEq

/-- Status codes on which requests raise_for_status raises HTTPError. -/
def errStatus (code : Nat) : Bool := 400 ≤ code && code < 600

/-- Embedding of src SitemapParser.fetch: each attempt GETs the URL;
raise_for_status turns a 4xx or 5xx response into a RequestException, which
is retried until the attempt budget (max_retries = 3) is exhausted, at
which point the exception is re-raised (Except.error); a non-error response
returns its text.  remaining counts the attempts still allowed including
the current one; k is the current attempt index. -/
def fetchSrcGo (resp : Nat → SrcAttempt) : Nat → Nat → Except Unit String
  | 0, _ => .error ()
  | remaining + 1, k =>
      match resp k with
      | .resp code text =>
          if errStatus code then
            if remaining = 0 then .error () else fetchSrcGo resp remaining (k + 1)
          else .ok text
      | .exn =>
          if remaining = 0 then .error () else fetchSrcGo resp remaining (k + 1)

/-- src SitemapParser.fetch with its default max_retries = 3. -/
def fetchSrc (resp : Nat → SrcAttempt) : Except Unit String :=
  fetchSrcGo resp 3 1

/-- Embedding of src SitemapParser._load_robots line extraction: from the
robots.txt body, each line that starts (lowercased) with disallow:
contributes the stripped remainder after the first colon.  Lines are the
newline-split of the text. -/
def loadRobotsRules (text : String) : List String :=
  (splitOnCharL '\n' text.data).filterMap (fun lineChars =>
    if strStartsWith (strLower ⟨lineChars⟩) "disallow:" then
      some (strTrim (pySplit1Last ⟨lineChars⟩ ":"))
    else none)

/-- Embedding of src SitemapParser._allowed: the path is the part of the
URL after base_url (url.split(base_url, 1)[-1]); the URL is disallowed
exactly when that path starts with one of the robots rules. -/
def allowed (baseUrl : String) (rules : List String) (url : String) : Bool :=
  let path := pySplit1Last url baseUrl
  !(rules.any (fun rule => strStartsWith path rule))

/-- Embedding of the url-set branch of src SitemapParser.parse: entries
without a loc tag are skipped; the loc text is stripped; URLs rejected by
_allowed are skipped; lastmod and changefreq are passed through unstripped
(findtext), and a priority tag has its text parsed by float().  The source
would propagate a ValueError on unparseable priority text; the model maps
it to an absent priority, a difference no theorem below relies on. -/
def parseUrlSet (baseUrl : String) (rules : List String)
    (urlTags : List UrlElem) : List SitemapEntry :=
  urlTags.filterMap (fun tag =>
    match tag.loc with
    | none => none
    | some t =>
        let loc := strTrim t
        if allowed baseUrl rules loc then
          some { url := loc
                 lastmod := tag.lastmod
                 changefreq := tag.changefreq
                 priority := match tag.priority with
                   | some p => pyFloat? p
                   | none => none : SitemapEntry }
        else none)

/-! ## Statements taken from the claims, and concrete instances -/

/-- The priority formula exactly as claim C8 words it: base is the declared
priorityHint or 0.5 only if absent, plus 0.5 for an empty or root path,
plus 0.2 for a keyword hit, minus 0.1 per non-empty path segment, clamped
to the unit interval at the end.  Written from the claim, to be compared
with getUrlPriority, the embedding of the source. -/
def claimPriority (u : URLInfo) : ℚ :=
  let base : ℚ := match u.priority with
    | some p => p
    | none => 0.5
  let path := strLower (urlPath u.url)
  let homepageBonus : ℚ := if path = "" ∨ path = "/" then 0.5 else 0
  let keywordBonus : ℚ :=
    if (["about", "service", "product", "contact"].any
        (fun keyword => strContains path keyword)) then 0.2 else 0
  let depth := ((splitOnCharL '/' path.data).filter (fun p => !p.isEmpty)).length
  min 1 (max 0 (base + homepageBonus + keywordBonus - depth * 0.1))

/-- The amended priority formula: as claim C8, except that the base falls
back to 0.5 also when the declared priorityHint equals 0.0, since Python
x or 0.5 treats the float 0.0 as falsy. -/
def amendedPriority (u : URLInfo) : ℚ :=
  let base : ℚ := match u.priority with
    | some p => if p = 0 then 0.5 else p
    | none => 0.5
  let path := strLower (urlPath u.url)
  let homepageBonus : ℚ := if path = "" ∨ path = "/" then 0.5 else 0
  let keywordBonus : ℚ :=
    if (["about", "service", "product", "contact"].any
        (fun keyword => strContains path keyword)) then 0.2 else 0
  let depth := ((splitOnCharL '/' path.data).filter (fun p => !p.isEmpty)).length
  min 1 (max 0 (base + homepageBonus + keywordBonus - depth * 0.1))

/-- A record declaring priority 0.0, distinguishing the source from the
claimed formula. -/
def c8rec : URLInfo := { url := "https://example.com/a", priority := some 0 }

/-- A robots.txt body with one disallow directive. -/
def c1robots : String := "User-agent: *\nDisallow: /private"

/-- A record whose URL path starts with the collected disallow rule. -/
def c1rec : URLInfo := { url := "https://example.com/private/page" }

/-- A url element whose location is not robots-disallowed. -/
def c1okTag : UrlElem := { loc := some "https://example.com/ok" }

/-- Attempt outcomes for _fetch_content: attempt 1 gets HTTP 500, every
later attempt would get HTTP 200 with content. -/
def c2resp : Nat → AttemptOutcome := fun k =>
  if k = 1 then .status 500 "" else .status 200 "ok"

/-- Attempt outcomes for src fetch: attempt 1 gets HTTP 500, every later
attempt gets HTTP 200 with content. -/
def c2srcResp : Nat → SrcAttempt := fun k =>
  if k = 1 then .resp 500 "err" else .resp 200 "good"

/-- A soup whose single url entry has a whitespace-only location. -/
def c3soup : Soup := { urlElems := [{ loc := some " " }] }

/-- A soup whose single url entry has an ordinary location. -/
def c3okSoup : Soup := { urlElems := [{ loc := some "https://e.com/x" }] }

/-- Network for the claim C4 scenario: the well-known index document
references sitemap1 and sitemap2; sitemap1 serves one url entry; sitemap2
(and every other URL, including robots.txt) fails to fetch. -/
def c4net : String → FetchOutcome := fun u =>
  if u = "https://example.com/sitemap_index.xml" then
    .ok { text := "<sitemapindex>",
          soup := { hasSitemapIndex := true,
                    sitemapElems := [some "https://example.com/sitemap1.xml",
                                     some "https://example.com/sitemap2.xml"] } }
  else if u = "https://example.com/sitemap1.xml" then
    .ok { text := "<urlset>",
          soup := { urlElems := [{ loc := some "https://example.com/a" }] } }
  else .fail

/-- The record the C4 scenario resolution must deliver. -/
def c4rec : URLInfo :=
  { url := "https://example.com/a",
    source_sitemap := some "https://example.com/sitemap1.xml" }

/-- A cyclic sitemap graph: the two well-known documents reference each
other. -/
def cycNet : String → FetchOutcome := fun u =>
  if u = "https://e.com/sitemap.xml" then
    .ok { text := "x",
          soup := { hasSitemapIndex := true,
                    sitemapElems := [some "https://e.com/sitemap_index.xml"] } }
  else if u = "https://e.com/sitemap_index.xml" then
    .ok { text := "x",
          soup := { hasSitemapIndex := true,
                    sitemapElems := [some "https://e.com/sitemap.xml"] } }
  else .fail

/-! ## Helper lemmas -/

/-- Deduplication returns a sublist of its input. -/
theorem dedupLoop_sublist (l : List URLInfo) :
    ∀ seen, List.Sublist (dedupLoop seen l) l := by
  induction l with
  | nil => intro seen; simp [dedupLoop]
  | cons u rest ih =>
      intro seen
      by_cases h : u.url ∈ seen
      · simpa [dedupLoop, h] using (ih seen).cons u
      · simpa [dedupLoop, h] using (ih (u.url :: seen)).cons₂ u

/-- No record kept by dedupLoop has a url in the seen accumulator. -/
theorem dedupLoop_mem_not_seen (l : List URLInfo) :
    ∀ seen r, r ∈ dedupLoop seen l → r.url ∉ seen := by
  induction l with
  | nil => intro seen r hr; simp [dedupLoop] at hr
  | cons u rest ih =>
      intro seen r hr
      by_cases h : u.url ∈ seen
      · simp only [dedupLoop, List.elem_iff, if_pos h] at hr
        exact ih seen r hr
      · simp only [dedupLoop, List.elem_iff, if_neg h] at hr
        rcases List.mem_cons.mp hr with rfl | hr'
        · exact h
        · have := ih (u.url :: seen) r hr'
          intro hc
          exact this (List.mem_cons_of_mem _ hc)

/-- The urls of the dedupLoop output are pairwise distinct. -/
theorem dedupLoop_map_nodup (l : List URLInfo) :
    ∀ seen, ((dedupLoop seen l).map (fun r => r.url)).Nodup := by
  induction l with
  | nil => intro seen; simp [dedupLoop]
  | cons u rest ih =>
      intro seen
      by_cases h : u.url ∈ seen
      · simp only [dedupLoop, List.elem_iff, if_pos h]; exact ih seen
      · simp only [dedupLoop, List.elem_iff, if_neg h, List.map_cons]
        refine List.nodup_cons.mpr ⟨?_, ih (u.url :: seen)⟩
        intro hmem
        rcases List.mem_map.mp hmem with ⟨r, hr, hru⟩
        refine dedupLoop_mem_not_seen rest (u.url :: seen) r hr ?_
        rw [hru]
        exact List.mem_cons_self _ _

/-- For a url not yet seen, the first matching record of the dedupLoop
output is the first matching record of the input. -/
theorem dedupLoop_find? (l : List URLInfo) :
    ∀ seen u, u ∉ seen →
      (dedupLoop seen l).find? (fun r => r.url == u) =
        l.find? (fun r => r.url == u) := by
  induction l with
  | nil => intro seen u _; simp [dedupLoop]
  | cons v rest ih =>
      intro seen u hu
      by_cases h : v.url ∈ seen
      · simp only [dedupLoop, List.elem_iff, if_pos h]
        have hvu : (v.url == u) = false := by
          refine beq_eq_false_iff_ne.mpr ?_
          intro e
          exact hu (e ▸ h)
        rw [List.find?_cons_of_neg _ (by simp [hvu]), ih seen u hu]
      · simp only [dedupLoop, List.elem_iff, if_neg h]
        by_cases hvu : v.url = u
        · rw [List.find?_cons_of_pos _ (by simp [hvu]),
              List.find?_cons_of_pos _ (by simp [hvu])]
        · have hb : (v.url == u) = false := beq_eq_false_iff_ne.mpr hvu
          rw [List.find?_cons_of_neg _ (by simp [hb]),
              List.find?_cons_of_neg _ (by simp [hb])]
          refine ih (v.url :: seen) u ?_
          intro hc
          rcases List.mem_cons.mp hc with e | hc'
          · exact hvu e.symm
          · exact hu hc'

/-- Stable insertion permutes to a cons. -/
theorem insertDesc_perm (key : URLInfo → ℚ) (x : URLInfo) :
    ∀ l, List.Perm (insertDesc key x l) (x :: l) := by
  intro l
  induction l with
  | nil => simp [insertDesc]
  | cons y ys ih =>
      by_cases h : key y ≤ key x
      · simp [insertDesc, h]
      · simp only [insertDesc, if_neg h]
        exact (ih.cons y).trans (List.Perm.swap x y ys)

/-- sortDesc permutes its input. -/
theorem sortDesc_perm (key : URLInfo → ℚ) :
    ∀ l, List.Perm (sortDesc key l) l := by
  intro l
  induction l with
  | nil => simp [sortDesc]
  | cons x xs ih =>
      exact (insertDesc_perm key x (sortDesc key xs)).trans (ih.cons x)

/-- Stable insertion preserves descending order. -/
theorem insertDesc_pairwise (key : URLInfo → ℚ) (x : URLInfo) :
    ∀ l, l.Pairwise (fun a b => key b ≤ key a) →
      (insertDesc key x l).Pairwise (fun a b => key b ≤ key a) := by
  intro l
  induction l with
  | nil => intro _; simp [insertDesc]
  | cons y ys ih =>
      intro hp
      rcases List.pairwise_cons.mp hp with ⟨hy, hys⟩
      by_cases h : key y ≤ key x
      · simp only [insertDesc, if_pos h]
        refine List.pairwise_cons.mpr ⟨?_, hp⟩
        intro z hz
        rcases List.mem_cons.mp hz with rfl | hz'
        · exact h
        · exact le_trans (hy z hz') h
      · simp only [insertDesc, if_neg h]
        refine List.pairwise_cons.mpr ⟨?_, ih hys⟩
        intro z hz
        have hz2 := (insertDesc_perm key x ys).mem_iff.mp hz
        rcases List.mem_cons.mp hz2 with rfl | hz'
        · exact le_of_lt (lt_of_not_le h)
        · exact hy z hz'

/-- sortDesc output is descending in the key. -/
theorem sortDesc_pairwise (key : URLInfo → ℚ) :
    ∀ l, (sortDesc key l).Pairwise (fun a b => key b ≤ key a) := by
  intro l
  induction l with
  | nil => simp [sortDesc]
  | cons x xs ih => exact insertDesc_pairwise key x (sortDesc key xs) ih

/-- Effect of stable insertion on the slice of one key value. -/
theorem insertDesc_filter (key : URLInfo → ℚ) (x : URLInfo) (c : ℚ) :
    ∀ l, (insertDesc key x l).filter (fun r => decide (key r = c)) =
      if key x = c then x :: l.filter (fun r => decide (key r = c))
      else l.filter (fun r => decide (key r = c)) := by
  intro l
  induction l with
  | nil =>
      by_cases hx : key x = c
      · simp [insertDesc, List.filter, hx]
      · simp [insertDesc, List.filter, hx]
  | cons y ys ih =>
      by_cases h : key y ≤ key x
      · rw [insertDesc, if_pos h]
        by_cases hx : key x = c <;> by_cases hy : key y = c <;>
          simp [List.filter_cons, hx, hy]
      · rw [insertDesc, if_neg h, List.filter_cons, List.filter_cons, ih]
        by_cases hy : key y = c
        · by_cases hx : key x = c
          · exact absurd (hx.trans hy.symm ▸ le_refl (key x)) (fun hle => h hle)
          · simp [hy, hx]
        · by_cases hx : key x = c
          · simp [hy, hx]
          · simp [hy, hx]

/-- Stability of sortDesc: the slice of any single key value is untouched. -/
theorem sortDesc_filter (key : URLInfo → ℚ) (c : ℚ) :
    ∀ l, (sortDesc key l).filter (fun r => decide (key r = c)) =
      l.filter (fun r => decide (key r = c)) := by
  intro l
  induction l with
  | nil => simp [sortDesc]
  | cons x xs ih =>
      rw [sortDesc, insertDesc_filter key x c (sortDesc key xs), List.filter_cons]
      by_cases hx : key x = c
      · simp [hx, ih]
      · simp [hx, ih]

/-- Clamped priorities always land in the unit interval. -/
theorem getUrlPriority_bounds (u : URLInfo) :
    0 ≤ getUrlPriority u ∧ getUrlPriority u ≤ 1 := by
  have h : ∀ q : ℚ, 0 ≤ min 1 (max 0 q) ∧ min 1 (max 0 q) ≤ 1 := fun q =>
    ⟨le_min (by norm_num) (le_max_left 0 q), min_le_left 1 _⟩
  exact h _

/-- The source priority computation agrees with the amended formula. -/
theorem getUrlPriority_eq_amended (u : URLInfo) :
    getUrlPriority u = amendedPriority u := by
  obtain ⟨url, lm, cf, pr, lt, ss⟩ := u
  cases pr with
  | none =>
      simp only [getUrlPriority, amendedPriority]
      split_ifs <;> (try rfl) <;> (congr 1 <;> (try rfl) <;> ring)
  | some p =>
      simp only [getUrlPriority, amendedPriority]
      split_ifs <;> (try rfl) <;> (congr 1 <;> (try rfl) <;> ring)

/-- One _parse_single_sitemap call either skips a visited URL, changing
nothing and fetching nothing, or fetches exactly its URL after adding it
to the visited set. -/
theorem parseSingleSitemap_cases (net : String → FetchOutcome)
    (parsed : List String) (u : String) :
    ((parseSingleSitemap net parsed u).2.1 = parsed ∧
     (parseSingleSitemap net parsed u).2.2 = []) ∨
    ((parseSingleSitemap net parsed u).2.1 = u :: parsed ∧
     (parseSingleSitemap net parsed u).2.2 = [u] ∧ u ∉ parsed) := by
  by_cases h : u ∈ parsed
  · left
    have hc : parsed.contains u = true := List.elem_iff.mpr h
    rw [parseSingleSitemap, if_pos hc]
    exact ⟨rfl, rfl⟩
  · right
    have hc : ¬(parsed.contains u = true) := fun hh => h (List.elem_iff.mp hh)
    rw [parseSingleSitemap, if_neg hc]
    rcases hn : net u with c | _
    · rcases hx : parseSitemapXml c.soup u with ⟨us, ns⟩
      by_cases ht : c.text = ""
      · simp [ht, h]
      · simp [ht, hx, h]
    · simp [h]

/-- Invariants of one resolution level: the visited set only grows, the
fetch log is duplicate-free, everything fetched ends up visited, nothing
fetched was visited before, and only pending URLs are fetched. -/
theorem runLevel_inv (net : String → FetchOutcome) :
    ∀ (pending : List String) (parsed : List String),
      (∀ x, x ∈ parsed → x ∈ (runLevel net parsed pending).2.1) ∧
      (runLevel net parsed pending).2.2.Nodup ∧
      (∀ x, x ∈ (runLevel net parsed pending).2.2 →
        x ∈ (runLevel net parsed pending).2.1) ∧
      (∀ x, x ∈ (runLevel net parsed pending).2.2 → x ∉ parsed) ∧
      (∀ x, x ∈ (runLevel net parsed pending).2.2 → x ∈ pending) := by
  intro pending
  induction pending with
  | nil =>
      intro parsed
      simp [runLevel]
  | cons u rest ih =>
      intro parsed
      rcases hps : parseSingleSitemap net parsed u with ⟨info, parsed1, flog⟩
      have hcase := parseSingleSitemap_cases net parsed u
      rw [hps] at hcase
      simp only at hcase
      have IH := ih parsed1
      rcases hrl : runLevel net parsed1 rest with ⟨infos, parsed2, flogs⟩
      rw [hrl] at IH
      simp only at IH
      rw [runLevel.eq_def]
      simp only [hps, hrl]
      rcases hcase with ⟨hp, hf⟩ | ⟨hp, hf, hnotmem⟩
      · subst hp hf
        refine ⟨IH.1, by simpa using IH.2.1, ?_, ?_, ?_⟩
        · intro x hx
          simp only [List.nil_append] at hx
          exact IH.2.2.1 x hx
        · intro x hx
          simp only [List.nil_append] at hx
          exact IH.2.2.2.1 x hx
        · intro x hx
          simp only [List.nil_append] at hx
          exact List.mem_cons_of_mem u (IH.2.2.2.2 x hx)
      · subst hp hf
        refine ⟨?_, ?_, ?_, ?_, ?_⟩
        · intro x hx
          exact IH.1 x (List.mem_cons_of_mem u hx)
        · simp only [List.singleton_append, List.nodup_cons]
          refine ⟨?_, IH.2.1⟩
          intro hu
          exact IH.2.2.2.1 u hu (List.mem_cons_self u parsed)
        · intro x hx
          rcases List.mem_cons.mp (by simpa using hx) with rfl | hx'
          · exact IH.1 x (List.mem_cons_self x parsed)
          · exact IH.2.2.1 x hx'
        · intro x hx
          rcases List.mem_cons.mp (by simpa using hx) with rfl | hx'
          · exact hnotmem
          · intro hxp
            exact IH.2.2.2.1 x hx' (List.mem_cons_of_mem u hxp)
        · intro x hx
          rcases List.mem_cons.mp (by simpa using hx) with rfl | hx'
          · exact List.mem_cons_self x rest
          · exact List.mem_cons_of_mem u (IH.2.2.2.2 x hx')

/-- The level loop executes at most remaining further iterations. -/
theorem resolveLoop_iters (net : String → FetchOutcome) (domain : String) :
    ∀ (remaining : Nat) (pending : List String) (st : ResolveState),
      (resolveLoop net domain remaining pending st).iters ≤ st.iters + remaining := by
  intro remaining
  induction remaining with
  | zero => intro pending st; simp [resolveLoop]
  | succ r ihr =>
      intro pending st
      cases pending with
      | nil => simp [resolveLoop]
      | cons p ps =>
          rw [resolveLoop.eq_def]
          rcases hrl : runLevel net st.parsed (p :: ps) with ⟨infos, parsed1, flog⟩
          simp only [hrl]
          exact le_trans (ihr _ _) (by simp; omega)

/-- The accumulated fetch log stays duplicate-free across the level loop. -/
theorem resolveLoop_fetched (net : String → FetchOutcome) (domain : String) :
    ∀ (remaining : Nat) (pending : List String) (st : ResolveState),
      st.fetched.Nodup → (∀ x, x ∈ st.fetched → x ∈ st.parsed) →
      (resolveLoop net domain remaining pending st).fetched.Nodup := by
  intro remaining
  induction remaining with
  | zero => intro pending st h1 _; simpa [resolveLoop] using h1
  | succ r ihr =>
      intro pending st h1 h2
      cases pending with
      | nil => simpa [resolveLoop] using h1
      | cons p ps =>
          rw [resolveLoop.eq_def]
          have INV := runLevel_inv net (p :: ps) st.parsed
          rcases hrl : runLevel net st.parsed (p :: ps) with ⟨infos, parsed1, flog⟩
          rw [hrl] at INV
          simp only at INV
          simp only [hrl]
          refine ihr _ _ ?_ ?_
          · simp only [List.nodup_append]
            refine ⟨h1, INV.2.1, ?_⟩
            intro x hx hx2
            exact INV.2.2.2.1 x hx2 (h2 x hx)
          · intro x hx
            simp only [List.mem_append] at hx
            rcases hx with hx | hx
            · exact INV.1 x (h2 x hx)
            · exact INV.2.2.1 x hx

/-- With a single remaining level, everything newly fetched comes from the
current frontier. -/
theorem resolveLoop_one_fetched (net : String → FetchOutcome) (domain : String)
    (pending : List String) (st : ResolveState) :
    ∀ x, x ∈ (resolveLoop net domain 1 pending st).fetched →
      x ∈ st.fetched ∨ x ∈ pending := by
  intro x
  cases pending with
  | nil =>
      intro hx
      exact Or.inl (by simpa [resolveLoop] using hx)
  | cons p ps =>
      rw [resolveLoop.eq_def]
      have INV := runLevel_inv net (p :: ps) st.parsed
      rcases hrl : runLevel net st.parsed (p :: ps) with ⟨infos, parsed1, flog⟩
      rw [hrl] at INV
      simp only at INV
      simp only [hrl]
      rw [resolveLoop.eq_def]
      intro hx
      rcases hnxt : collectNext domain parsed1 infos with _ | ⟨q, qs⟩
      · simp only [hnxt] at hx
        simp only [List.mem_append] at hx
        rcases hx with hx | hx
        · exact Or.inl hx
        · exact Or.inr (INV.2.2.2.2 x hx)
      · simp only [hnxt] at hx
        simp only [List.mem_append] at hx
        rcases hx with hx | hx
        · exact Or.inl hx
        · exact Or.inr (INV.2.2.2.2 x hx)

/-- When every fetch fails, a single document resolution either skips a
visited URL (no records, no children) or reports an error. -/
theorem parseSingle_allfail (net : String → FetchOutcome)
    (hf : ∀ u, net u = .fail) (parsed : List String) (u : String) :
    (parseSingleSitemap net parsed u).1.error = true ∨
    ((parseSingleSitemap net parsed u).1.urls = [] ∧
     (parseSingleSitemap net parsed u).1.nested_sitemaps = []) := by
  by_cases h : u ∈ parsed
  · right
    have hc : parsed.contains u = true := List.elem_iff.mpr h
    rw [parseSingleSitemap, if_pos hc]
    exact ⟨rfl, rfl⟩
  · left
    have hc : ¬(parsed.contains u = true) := fun hh => h (List.elem_iff.mp hh)
    rw [parseSingleSitemap, if_neg hc, hf u]

/-- When every fetch fails, every level document is errored or empty. -/
theorem runLevel_allfail (net : String → FetchOutcome)
    (hf : ∀ u, net u = .fail) :
    ∀ (pending : List String) (parsed : List String) (info : SitemapInfo),
      info ∈ (runLevel net parsed pending).1 →
      info.error = true ∨ (info.urls = [] ∧ info.nested_sitemaps = []) := by
  intro pending
  induction pending with
  | nil => intro parsed info h; simp [runLevel] at h
  | cons u rest ih =>
      intro parsed info hinfo
      have hone := parseSingle_allfail net hf parsed u
      rcases hps : parseSingleSitemap net parsed u with ⟨info1, parsed1, flog⟩
      rw [hps] at hone
      simp only at hone
      rw [runLevel.eq_def] at hinfo
      simp only [hps] at hinfo
      rcases hrl : runLevel net parsed1 rest with ⟨infos, parsed2, flogs⟩
      rw [hrl] at hinfo
      simp only at hinfo
      rcases List.mem_cons.mp hinfo with rfl | hmem
      · exact hone
      · have := ih parsed1 info
        rw [hrl] at this
        exact this hmem

/-- Errored or empty documents contribute no records. -/
theorem collectUrls_allfail :
    ∀ infos : List SitemapInfo,
      (∀ info ∈ infos, info.error = true ∨
        (info.urls = [] ∧ info.nested_sitemaps = [])) →
      collectUrls infos = [] := by
  intro infos
  induction infos with
  | nil => intro _; rfl
  | cons i rest ih =>
      intro h
      rw [collectUrls]
      rcases h i (List.mem_cons_self i rest) with he | ⟨hu, _⟩
      · simp [he, ih (fun info hm => h info (List.mem_cons_of_mem i hm))]
      · rcases hie : i.error with _ | _
        · simp [hie, hu, ih (fun info hm => h info (List.mem_cons_of_mem i hm))]
        · simp [hie, ih (fun info hm => h info (List.mem_cons_of_mem i hm))]

/-- When every fetch fails, the loop accumulates no records. -/
theorem resolveLoop_allfail (net : String → FetchOutcome) (domain : String)
    (hf : ∀ u, net u = .fail) :
    ∀ (remaining : Nat) (pending : List String) (st : ResolveState),
      (resolveLoop net domain remaining pending st).acc = st.acc := by
  intro remaining
  induction remaining with
  | zero => intro pending st; simp [resolveLoop]
  | succ r ihr =>
      intro pending st
      cases pending with
      | nil => simp [resolveLoop]
      | cons p ps =>
          rw [resolveLoop.eq_def]
          have hall := runLevel_allfail net hf (p :: ps) st.parsed
          rcases hrl : runLevel net st.parsed (p :: ps) with ⟨infos, parsed1, flog⟩
          rw [hrl] at hall
          simp only at hall
          simp only [hrl]
          rw [ihr _ _]
          simp [collectUrls_allfail infos hall]

/-! ## Claim theorems -/

/-- C1, counterexample: the Filter and Priority Pipeline (_filter_urls of
website_analyzer) does not reject robots-disallowed records.  With the
collected disallow rule /private and a record whose URL path starts with
/private, the record survives _filter_urls, refuting the claim that such
records are absent from the pipeline output. -/
theorem claim1_counterexample :
    loadRobotsRules c1robots = ["/private"] ∧
    strStartsWith (urlPath c1rec.url) "/private" = true ∧
    filterUrls [c1rec] "https://example.com" = [c1rec] := by decide

/-- C1, amended: robots-disallow prefix rejection happens in the src/src
parser at parse time, not in the website_analyzer filter pipeline.  Every
entry emitted by the url-set branch of src parse has a URL whose path (the
remainder of the URL after base_url) starts with none of the disallow
rules collected from robots.txt: records matching a disallow prefix are
rejected by _allowed and never emitted. -/
theorem claim1_amended (robotsText baseUrl : String) (tags : List UrlElem)
    (rule : String) (e : SitemapEntry)
    (hrule : rule ∈ loadRobotsRules robotsText)
    (he : e ∈ parseUrlSet baseUrl (loadRobotsRules robotsText) tags) :
    strStartsWith (pySplit1Last e.url baseUrl) rule = false := by
  rcases List.mem_filterMap.mp he with ⟨tag, _, hf⟩
  rcases hloc : tag.loc with _ | t
  · rw [hloc] at hf
    exact absurd hf (by simp)
  · rw [hloc] at hf
    simp only at hf
    by_cases hall : allowed baseUrl (loadRobotsRules robotsText) (strTrim t) = true
    · rw [if_pos hall] at hf
      injection hf with hrec
      have he2 : e.url = strTrim t := by rw [← hrec]
      simp only [allowed, Bool.not_eq_true'] at hall
      rw [List.any_eq_false] at hall
      have := hall rule hrule
      rw [he2]
      simpa using this
    · rw [if_neg hall] at hf
      exact absurd hf (by simp)

/-- C1, witness: an entry that is not disallowed is emitted and indeed does
not match the rule. -/
theorem claim1_witness :
    strStartsWith
      (pySplit1Last
        ({ url := "https://example.com/ok" } : SitemapEntry).url "https://example.com")
      "/private" = false :=
  claim1_amended c1robots "https://example.com" [c1okTag] "/private"
    { url := "https://example.com/ok" } (by decide) (by decide)

/-- C2, counterexample: _fetch_content answers a non-200 status by
returning None at once instead of retrying: with HTTP 500 on attempt 1 and
a 200 with content available from attempt 2 on, the call still returns an
absent result, refuting retry-on-non-200 and content-or-error delivery for
this fetch operation. -/
theorem claim2_counterexample :
    fetchContent c2resp = Except.ok none ∧
    c2resp 1 = AttemptOutcome.status 500 "" ∧
    c2resp 2 = AttemptOutcome.status 200 "ok" := ⟨rfl, rfl, rfl⟩

/-- C2, amended: in website_analyzer _fetch_content only exceptions are
retried and any non-200 first response yields None immediately; in the
src/src fetch an HTTP error status (4xx or 5xx, raised by
raise_for_status) is retried up to the 3-attempt budget, a later success
delivers the content, and exhausting all attempts delivers a definitive
error, never an absent success. -/
theorem claim2_amended :
    (∀ (resp : Nat → AttemptOutcome) (code : Nat) (text : String),
      resp 1 = .status code text → code ≠ 200 → fetchContent resp = .ok none) ∧
    (∀ (resp : Nat → SrcAttempt) (code : Nat) (t1 t2 : String),
      errStatus code = true → resp 1 = .resp code t1 → resp 2 = .resp 200 t2 →
      fetchSrc resp = .ok t2) ∧
    (∀ resp : Nat → SrcAttempt,
      (∀ k, resp k = .exn ∨ ∃ code t, resp k = .resp code t ∧ errStatus code = true) →
      fetchSrc resp = .error ()) := by
  refine ⟨?_, ?_, ?_⟩
  · intro resp code text h1 hc
    simp [fetchContent, fetchContentGo, h1, hc]
  · intro resp code t1 t2 herr h1 h2
    have h200 : errStatus 200 = false := by decide
    simp [fetchSrc, fetchSrcGo, h1, h2, herr, h200]
  · intro resp h
    have step : ∀ k remaining, fetchSrcGo resp (remaining + 1) k =
        if remaining = 0 then .error () else fetchSrcGo resp remaining (k + 1) := by
      intro k remaining
      rcases h k with hk | ⟨code, t, hk, herr⟩
      · simp [fetchSrcGo, hk]
      · simp [fetchSrcGo, hk, herr]
    show fetchSrcGo resp 3 1 = .error ()
    rw [show (3 : Nat) = 2 + 1 from rfl, step, if_neg (by decide),
        show (2 : Nat) = 1 + 1 from rfl, step, if_neg (by decide),
        show (1 : Nat) = 0 + 1 from rfl, step, if_pos rfl]

/-- C2, witness: the src fetch retries a 500 into content, and all-failing
attempts produce a definitive error. -/
theorem claim2_witness :
    fetchSrc c2srcResp = Except.ok "good" ∧
    fetchSrc (fun _ => SrcAttempt.exn) = Except.error () :=
  ⟨claim2_amended.2.1 c2srcResp 500 "err" "good" (by decide) (by decide) (by decide),
   claim2_amended.2.2 _ (fun k => Or.inl rfl)⟩

/-- C3, counterexample: a url entry whose location text is whitespace-only
passes the truthiness test (checked before stripping) and is emitted as a
URLRecord with empty url, refuting the claim that a location empty after
trimming is dropped at parse time. -/
theorem claim3_counterexample :
    (parseSitemapXml c3soup "https://example.com/sitemap.xml").1.map (fun r => r.url) =
      [""] := by decide

/-- C3, amended: an entry lacking a location, or whose location text is the
empty string, is dropped at parse time; every emitted record has as url the
stripped text of a non-empty location (so the url is empty exactly when the
location was whitespace-only). -/
theorem claim3_amended (soup : Soup) (sitemapUrl : String) (r : URLInfo)
    (hr : r ∈ (parseSitemapXml soup sitemapUrl).1) :
    ∃ t : String, t ≠ "" ∧ r.url = strTrim t := by
  by_cases hm : soup.malformed = true
  · simp [parseSitemapXml, hm] at hr
  · simp only [parseSitemapXml, Bool.not_eq_true] at hm
    rw [parseSitemapXml] at hr
    simp only [hm, Bool.false_eq_true, if_false] at hr
    rcases List.mem_append.mp hr with hu | hi
    · rcases List.mem_filterMap.mp hu with ⟨el, _, hf⟩
      rcases hloc : el.loc with _ | t
      · rw [hloc] at hf
        exact absurd hf (by simp)
      · rw [hloc] at hf
        simp only at hf
        by_cases ht : t = ""
        · rw [if_neg (by simp [ht])] at hf
          exact absurd hf (by simp)
        · rw [if_pos (by simp [ht])] at hf
          injection hf with hrec
          exact ⟨t, ht, by rw [← hrec]⟩
    · rcases List.mem_filterMap.mp hi with ⟨el, _, hf⟩
      rcases hloc : el with _ | t
      · rw [hloc] at hf
        exact absurd hf (by simp)
      · rw [hloc] at hf
        simp only at hf
        by_cases ht : t = ""
        · rw [if_neg (by simp [ht])] at hf
          exact absurd hf (by simp)
        · rw [if_pos (by simp [ht])] at hf
          injection hf with hrec
          exact ⟨t, ht, by rw [← hrec]⟩

/-- C3, witness: the record parsed from an ordinary location is the strip
of that non-empty location text. -/
theorem claim3_witness :
    ∃ t : String, t ≠ "" ∧
      ({ url := "https://e.com/x", source_sitemap := some "u" } : URLInfo).url =
        strTrim t :=
  claim3_amended c3okSoup "u"
    { url := "https://e.com/x", source_sitemap := some "u" } (by decide)

/-- C4: a resolution in which every fetch fails still returns normally with
the empty record list, and in the scenario where the well-known index
references sitemap1 and sitemap2 with sitemap2 failing every attempt, the
resolution still delivers the valid entry of sitemap1 even though sitemap2
was attempted and failed; no exception escapes parse_website, which is a
total function of the network. -/
theorem claim4 :
    (∀ (net : String → FetchOutcome) (websiteUrl : String) (maxDepth : Nat),
      (∀ u, net u = .fail) → (parseWebsite net websiteUrl maxDepth).result = []) ∧
    (parseWebsite c4net "https://example.com" 3).result = [c4rec] ∧
    c4net "https://example.com/sitemap2.xml" = .fail ∧
    "https://example.com/sitemap2.xml" ∈ (parseWebsite c4net "https://example.com" 3).fetched := by
  refine ⟨?_, by decide, by decide, by decide⟩
  intro net websiteUrl maxDepth hf
  have hacc := resolveLoop_allfail net (getDomain websiteUrl) hf maxDepth
    (seedSitemaps net websiteUrl) { parsed := [], acc := [], fetched := [], iters := 0 }
  simp only [parseWebsite, hacc]
  rfl

/-- C4, witness: with a network on which every fetch fails, the resolution
returns the empty list. -/
theorem claim4_witness :
    (parseWebsite (fun _ => FetchOutcome.fail) "https://example.com" 3).result = [] :=
  claim4.1 (fun _ => FetchOutcome.fail) "https://example.com" 3 (fun _ => rfl)

/-- C5: for every network, including cyclic sitemap graphs, the resolution
loop of parse_website runs at most maxDepth iterations, and with maxDepth 1
every fetched document URL is one of the seed frontier URLs, so documents
referenced only at deeper levels are never fetched. -/
theorem claim5 (net : String → FetchOutcome) (websiteUrl : String) (maxDepth : Nat) :
    (parseWebsite net websiteUrl maxDepth).iters ≤ maxDepth ∧
    (∀ u, u ∈ (parseWebsite net websiteUrl 1).fetched →
      u ∈ seedSitemaps net websiteUrl) := by
  constructor
  · simpa [parseWebsite] using
      resolveLoop_iters net (getDomain websiteUrl) maxDepth
        (seedSitemaps net websiteUrl) { parsed := [], acc := [], fetched := [], iters := 0 }
  · intro u hu
    have := resolveLoop_one_fetched net (getDomain websiteUrl)
      (seedSitemaps net websiteUrl) { parsed := [], acc := [], fetched := [], iters := 0 }
      u (by simpa [parseWebsite] using hu)
    simpa using this

/-- C5, witness: on the two-document cyclic graph the loop runs at most one
iteration at maxDepth 1 and fetches only a seed URL. -/
theorem claim5_witness :
    (parseWebsite cycNet "https://e.com" 1).iters ≤ 1 ∧
    "https://e.com/sitemap.xml" ∈ seedSitemaps cycNet "https://e.com" :=
  ⟨(claim5 cycNet "https://e.com" 1).1,
   (claim5 cycNet "https://e.com" 1).2 "https://e.com/sitemap.xml" (by decide)⟩

/-- C6: in any single resolution, the list of sitemap URLs passed to the
fetcher is duplicate-free (each distinct document URL is fetched at most
once even through shared references or cycles), and a URL already in the
visited set is answered without any fetch. -/
theorem claim6 :
    (∀ (net : String → FetchOutcome) (websiteUrl : String) (maxDepth : Nat),
      (parseWebsite net websiteUrl maxDepth).fetched.Nodup) ∧
    (∀ (net : String → FetchOutcome) (parsed : List String) (u : String),
      u ∈ parsed → (parseSingleSitemap net parsed u).2.2 = []) := by
  constructor
  · intro net websiteUrl maxDepth
    simpa [parseWebsite] using
      resolveLoop_fetched net (getDomain websiteUrl) maxDepth
        (seedSitemaps net websiteUrl) { parsed := [], acc := [], fetched := [], iters := 0 }
        (by simp) (by simp)
  · intro net parsed u h
    have hc : parsed.contains u = true := List.elem_iff.mpr h
    rw [parseSingleSitemap, if_pos hc]

/-- C6, witness: on the cyclic graph no URL is fetched twice, and a visited
URL triggers no fetch. -/
theorem claim6_witness :
    (parseWebsite cycNet "https://e.com" 5).fetched.Nodup ∧
    (parseSingleSitemap cycNet ["https://e.com/sitemap.xml"]
      "https://e.com/sitemap.xml").2.2 = [] :=
  ⟨claim6.1 cycNet "https://e.com" 5,
   claim6.2 cycNet ["https://e.com/sitemap.xml"] "https://e.com/sitemap.xml"
     (by decide)⟩

/-- C7: _deduplicate_urls returns a sublist of its input (duplicates are
dropped whole, nothing is merged or rewritten) whose urls are pairwise
distinct, and for every url the record kept is exactly the first matching
record of the input. -/
theorem claim7 (l : List URLInfo) :
    List.Sublist (deduplicateUrls l) l ∧
    ((deduplicateUrls l).map (fun r => r.url)).Nodup ∧
    ∀ u : String, (deduplicateUrls l).find? (fun r => r.url == u) =
      l.find? (fun r => r.url == u) := by
  refine ⟨dedupLoop_sublist l [], dedupLoop_map_nodup l [], fun u => ?_⟩
  exact dedupLoop_find? l [] u (by simp)

/-- C8, counterexample: a record declaring priority 0.0 on path /a gets
computed priority 0.4 from the source (Python x or 0.5 treats the declared
0.0 as absent), while the claimed formula gives 0, refuting the claimed
equation. -/
theorem claim8_counterexample :
    getUrlPriority c8rec = 2/5 ∧ claimPriority c8rec = 0 ∧
    getUrlPriority c8rec ≠ claimPriority c8rec := by
  have hprio : c8rec.priority = some 0 := rfl
  have hpath : strLower (urlPath c8rec.url) = "/a" := by decide
  have h0 : ¬(("/a" : String) = "" ∨ ("/a" : String) = "/") := by decide
  have hkw : (["about", "service", "product", "contact"].any
      (fun keyword => strContains "/a" keyword)) = false := by decide
  have hd : ((splitOnCharL '/' ("/a" : String).data).filter
      (fun p => !p.isEmpty)).length = 1 := by decide
  have h1 : getUrlPriority c8rec = 2/5 := by
    simp only [getUrlPriority, hprio, hpath, h0, hkw, hd]
    norm_num
  have h2 : claimPriority c8rec = 0 := by
    simp only [claimPriority, hprio, hpath, h0, hkw, hd]
    norm_num
  refine ⟨h1, h2, ?_⟩
  rw [h1, h2]
  norm_num

/-- C8, amended: the computed priority equals the claimed formula with the
base amended to fall back to 0.5 also when the declared priorityHint is
0.0 (Python falsy), and every computed priority lies in the unit
interval. -/
theorem claim8_amended (u : URLInfo) :
    getUrlPriority u = amendedPriority u ∧
    0 ≤ getUrlPriority u ∧ getUrlPriority u ≤ 1 :=
  ⟨getUrlPriority_eq_amended u, (getUrlPriority_bounds u).1, (getUrlPriority_bounds u).2⟩

/-- C9: the pipeline output is a permutation of the surviving records,
descending in the computed priority, and stable: the subsequence of
records at any fixed priority value is exactly that subsequence of the
pre-sort survivor list. -/
theorem claim9 (urls : List URLInfo) (domain : String) :
    List.Perm (filterUrls urls domain) (keptUrls urls domain) ∧
    (filterUrls urls domain).Pairwise
      (fun a b => getUrlPriority b ≤ getUrlPriority a) ∧
    ∀ c : ℚ, (filterUrls urls domain).filter (fun r => decide (getUrlPriority r = c)) =
      (keptUrls urls domain).filter (fun r => decide (getUrlPriority r = c)) := by
  refine ⟨sortDesc_perm getUrlPriority (keptUrls urls domain),
    sortDesc_pairwise getUrlPriority (keptUrls urls domain),
    fun c => sortDesc_filter getUrlPriority c (keptUrls urls domain)⟩

/-- C10: parse_sitemap_simple always returns at most 50 URLs, and returns
the empty list without raising on any non-200 status and on any
exception. -/
theorem claim10 :
    (∀ r, (parseSitemapSimple r).length ≤ 50) ∧
    (∀ (status : Nat) (soup : Soup), status ≠ 200 →
      parseSitemapSimple (.resp status soup) = []) ∧
    parseSitemapSimple SimpleResp.exn = [] := by
  refine ⟨?_, ?_, rfl⟩
  · intro r
    cases r with
    | exn => simp [parseSitemapSimple]
    | resp st soup =>
        simp only [parseSitemapSimple]
        split_ifs <;> simp [List.length_take]
  · intro st soup h
    simp [parseSitemapSimple, h]

/-- C10, witness: an HTTP 500 yields the empty list, and a 200 parse stays
within the 50-URL bound. -/
theorem claim10_witness :
    parseSitemapSimple (SimpleResp.resp 500 {}) = [] ∧
    (parseSitemapSimple (SimpleResp.resp 200 c3okSoup)).length ≤ 50 :=
  ⟨claim10.2.1 500 {} (by decide), claim10.1 _⟩
